import Mathlib

/-!
# Verification of the audiom-embedder configuration and messaging library

This file gives a shallow embedding, in Lean 4, of the TypeScript sources
of the audiom-embedder repository:

* `src/StepSize.ts` — validated unit-carrying step sizes with parsing,
  formatting and unit conversion;
* `src/AudiomSource.ts` — per-source descriptors serialising to namespaced
  query parameters;
* `src/AudiomEmbedConfig.ts` — the embed configuration and its
  `toQueryParams` serialisation algorithm;
* `src/AudiomMessages.ts` — the cross-frame message handler (listener set,
  origin filter, shape predicate, subscription lifecycle).

Modelling conventions:

* JavaScript numbers are idealised as exact rationals (`ℚ`); the default
  number-to-string conversion is modelled as exact positional decimal
  rendering (integer digits, then a `.` and fraction digits when the value
  is not an integer), which agrees with JavaScript's output on the plain
  decimal range.  IEEE-754 rounding and exponent notation are outside this
  idealisation.  The rendering functions below are written over `q.num`
  and `q.den` with plain natural/integer arithmetic so that they evaluate
  on concrete inputs.
* JavaScript plain objects used as string-keyed records are modelled as
  association lists (`Params`); assigning to a key overwrites the existing
  binding in place (keeping the key's position) or appends, exactly as JS
  property assignment behaves for later enumeration and lookup.
* Thrown errors are modelled with `Except`: the two error conditions of
  `StepSize` are the constructor's must-be-positive check
  (`invalidArgument`, message "Step size value must be positive") and the
  parse grammar failure (`formatError`, message "Invalid step size
  format").
* The message handler's callbacks are identified by numeric ids; a
  dispatch is modelled by the list of (callback id, argument) invocations
  it performs.
-/

/-! ## String-keyed parameter records (JS object semantics) -/

/-- A JS object used as a `Record<string, string>`: an insertion-ordered
association list.  All records built by the embedded code have distinct
keys because `setParam` overwrites in place. -/
abbrev Params := List (String × String)

/-- JS property assignment `obj[k] = v`: overwrite the first binding of `k`
in place, else append at the end. -/
def setParam : Params → String → String → Params
  | [], k, v => [(k, v)]
  | (k0, v0) :: rest, k, v =>
    if k0 = k then (k0, v) :: rest else (k0, v0) :: setParam rest k v

/-- JS property read `obj[k]` (first binding wins; keys are unique in all
records the code builds). -/
def getParam : Params → String → Option String
  | [], _ => none
  | (k0, v0) :: rest, k => if k0 = k then some v0 else getParam rest k

/-- The `if (x) { obj[k] = x }` pattern: set the key only when the
optional value is present. -/
def setIfSome (ps : Params) (k : String) (v : Option String) : Params :=
  match v with
  | some s => setParam ps k s
  | none => ps

theorem getParam_setParam_self (ps : Params) (k v : String) :
    getParam (setParam ps k v) k = some v := by
  induction ps with
  | nil => simp [setParam, getParam]
  | cons hd tl ih =>
    obtain ⟨k0, v0⟩ := hd
    by_cases h : k0 = k
    · subst h; simp [setParam, getParam]
    · simp [setParam, getParam, h, ih]

theorem getParam_setParam_ne (ps : Params) (k v k' : String) (h : k' ≠ k) :
    getParam (setParam ps k v) k' = getParam ps k' := by
  induction ps with
  | nil =>
    simp only [setParam, getParam]
    exact if_neg (fun hh => h hh.symm)
  | cons hd tl ih =>
    obtain ⟨k0, v0⟩ := hd
    by_cases hk : k0 = k
    · subst hk
      simp only [setParam, if_pos rfl, getParam]
      rw [if_neg (fun hh : k0 = k' => h hh.symm),
        if_neg (fun hh : k0 = k' => h hh.symm)]
    · simp only [setParam, if_neg hk, getParam]
      by_cases hk' : k0 = k'
      · simp [hk']
      · simp [hk', ih]

theorem getParam_setIfSome_ne (ps : Params) (k k' : String) (v : Option String)
    (h : k' ≠ k) : getParam (setIfSome ps k v) k' = getParam ps k' := by
  cases v with
  | none => rfl
  | some s => exact getParam_setParam_ne ps k s k' h

theorem getParam_setIfSome_self (ps : Params) (k : String) (v : Option String)
    (hnone : getParam ps k = none) : getParam (setIfSome ps k v) k = v := by
  cases v with
  | none => exact hnone
  | some s => exact getParam_setParam_self ps k s

/-- Keys present after a `setParam` come from the old record or are the key
just set. -/
theorem mem_setParam (ps : Params) (k v : String) (kv : String × String)
    (h : kv ∈ setParam ps k v) : kv ∈ ps ∨ kv.1 = k := by
  induction ps with
  | nil =>
    simp [setParam] at h
    subst h; right; rfl
  | cons hd tl ih =>
    obtain ⟨k0, v0⟩ := hd
    by_cases hk : k0 = k
    · subst hk
      simp only [setParam, if_pos rfl] at h
      rcases List.mem_cons.1 h with h1 | h1
      · subst h1; right; rfl
      · left; exact List.mem_cons_of_mem _ h1
    · simp only [setParam, if_neg hk] at h
      rcases List.mem_cons.1 h with h1 | h1
      · subst h1; left; exact List.mem_cons_self _ _
      · rcases ih h1 with h' | h'
        · left; exact List.mem_cons_of_mem _ h'
        · right; exact h'

/-- Folding JS assignments over entries whose keys all differ from `k`
leaves the binding of `k` unchanged. -/
theorem getParam_foldl_setParam_ne {α : Type} (f g : α → String)
    (l : List α) (ps : Params) (k : String) (h : ∀ a ∈ l, f a ≠ k) :
    getParam (l.foldl (fun acc a => setParam acc (f a) (g a)) ps) k = getParam ps k := by
  induction l generalizing ps with
  | nil => rfl
  | cons hd tl ih =>
    rw [List.foldl_cons, ih _ (fun a ha => h a (List.mem_cons_of_mem _ ha))]
    exact getParam_setParam_ne ps (f hd) (g hd) k
      (fun hh => h hd (List.mem_cons_self _ _) hh.symm)

/-- Folding JS assignments over entries with pairwise-distinct keys binds
each entry's key to that entry's value (JS `Record` merge semantics). -/
theorem getParam_foldl_setParam_mem {α : Type} (f g : α → String)
    (l : List α) (ps : Params) (a : α)
    (hnd : (l.map f).Nodup) (ha : a ∈ l) :
    getParam (l.foldl (fun acc a => setParam acc (f a) (g a)) ps) (f a) = some (g a) := by
  induction l generalizing ps with
  | nil => cases ha
  | cons hd tl ih =>
    rw [List.map_cons, List.nodup_cons] at hnd
    rcases List.mem_cons.1 ha with h | h
    · subst h
      rw [List.foldl_cons,
        getParam_foldl_setParam_ne f g tl _ (f a)
          (fun b hb hb' => hnd.1 (hb' ▸ List.mem_map_of_mem f hb))]
      exact getParam_setParam_self ps (f a) (g a)
    · exact ih _ hnd.2 h

/-! ## Decimal digit strings

Executable positional decimal rendering and reading used to model both the
JavaScript default number-to-string conversion and `parseFloat` on the
digit strings accepted by the step-size grammar. -/

/-- The character for one decimal digit. -/
def digitChar (d : ℕ) : Char := Char.ofNat (48 + d)

/-- The numeric value of one decimal digit character. -/
def charDigit (c : Char) : ℕ := c.toNat - 48

/-- Little-endian decimal digits of `n`, using `n` itself as recursion
fuel (`n < 10^n`, so the fuel is always sufficient). -/
def natDigitsAux : ℕ → ℕ → List Char
  | 0, _ => []
  | _ + 1, 0 => []
  | fuel + 1, n + 1 => digitChar ((n + 1) % 10) :: natDigitsAux fuel ((n + 1) / 10)

/-- Little-endian decimal digit characters of `n`. -/
def natDigits (n : ℕ) : List Char := natDigitsAux n n

/-- Decimal rendering of a natural number, as JavaScript renders one. -/
def natStr (n : ℕ) : String := if n = 0 then "0" else ⟨(natDigits n).reverse⟩

/-- Value of a little-endian list of decimal digit values. -/
def valLE : List ℕ → ℕ
  | [] => 0
  | d :: ds => d + 10 * valLE ds

/-- Value of a big-endian decimal digit character string, as `parseFloat`
reads the integer (or fraction) part of a matched numeral. -/
def parseDigits (cs : List Char) : ℕ := valLE ((cs.map charDigit).reverse)

theorem charDigit_digitChar (d : ℕ) (h : d < 10) : charDigit (digitChar d) = d := by
  interval_cases d <;> decide

theorem isDigit_digitChar (d : ℕ) (h : d < 10) : (digitChar d).isDigit = true := by
  interval_cases d <;> decide

theorem natDigitsAux_sound (fuel n : ℕ) (h : n ≤ fuel) :
    valLE ((natDigitsAux fuel n).map charDigit) = n := by
  induction fuel generalizing n with
  | zero => interval_cases n; rfl
  | succ fuel ih =>
    cases n with
    | zero => rfl
    | succ m =>
      have hd : (m + 1) / 10 ≤ fuel := by
        have h1 : (m + 1) / 10 < m + 1 := Nat.div_lt_self (Nat.succ_pos m) (by omega)
        omega
      simp only [natDigitsAux, List.map_cons, valLE, ih _ hd,
        charDigit_digitChar _ (Nat.mod_lt _ (by omega))]
      omega

theorem natDigitsAux_digits (fuel n : ℕ) :
    ∀ c ∈ natDigitsAux fuel n, c.isDigit = true := by
  induction fuel generalizing n with
  | zero => intro c hc; cases hc
  | succ fuel ih =>
    cases n with
    | zero => intro c hc; cases hc
    | succ m =>
      intro c hc
      rcases List.mem_cons.1 hc with h | h
      · subst h; exact isDigit_digitChar _ (Nat.mod_lt _ (by omega))
      · exact ih _ c h

theorem natDigitsAux_len (fuel n k : ℕ) (h : n < 10 ^ k) :
    (natDigitsAux fuel n).length ≤ k := by
  induction fuel generalizing n k with
  | zero => simp [natDigitsAux]
  | succ fuel ih =>
    cases n with
    | zero => simp [natDigitsAux]
    | succ m =>
      cases k with
      | zero => simp at h
      | succ k =>
        simp only [natDigitsAux, List.length_cons]
        have hlt : (m + 1) / 10 < 10 ^ k := by
          apply (Nat.div_lt_iff_lt_mul (by omega : (0:ℕ) < 10)).2
          calc m + 1 < 10 ^ (k + 1) := h
            _ = 10 ^ k * 10 := pow_succ 10 k
        exact Nat.succ_le_succ (ih _ _ hlt)

theorem parseDigits_natStr (n : ℕ) : parseDigits (natStr n).data = n := by
  by_cases h : n = 0
  · subst h; rfl
  · simp only [natStr, h, if_false, parseDigits]
    rw [List.map_reverse, List.reverse_reverse]
    exact natDigitsAux_sound n n le_rfl

theorem natStr_digits (n : ℕ) : ∀ c ∈ (natStr n).data, c.isDigit = true := by
  by_cases h : n = 0
  · subst h; decide
  · simp only [natStr, h, if_false]
    intro c hc
    exact natDigitsAux_digits n n c (List.mem_reverse.1 hc)

theorem natStr_ne_nil (n : ℕ) : (natStr n).data ≠ [] := by
  by_cases h : n = 0
  · subst h; decide
  · simp only [natStr, h, if_false]
    intro hcon
    have hval : valLE ((natDigits n).map charDigit) = n := natDigitsAux_sound n n le_rfl
    have hnil : natDigits n = [] := List.reverse_eq_nil_iff.1 hcon
    rw [hnil] at hval
    exact h hval.symm

/-- Appending high-order zero digits does not change the value. -/
theorem valLE_append_zeros (l : List ℕ) (k : ℕ) :
    valLE (l ++ List.replicate k 0) = valLE l := by
  induction l with
  | nil =>
    induction k with
    | zero => rfl
    | succ k ih => simpa [List.replicate_succ, valLE] using ih
  | cons d ds ih => simp [valLE, ih]

/-- The fraction digit string: the digits of `m`, left-padded with zeros
to width `e` (`m < 10^e`). -/
def fracStr (e m : ℕ) : List Char :=
  List.replicate (e - (natDigits m).length) '0' ++ (natDigits m).reverse

theorem fracStr_digits (e m : ℕ) : ∀ c ∈ fracStr e m, c.isDigit = true := by
  intro c hc
  rcases List.mem_append.1 hc with h | h
  · rw [List.eq_of_mem_replicate h]; decide
  · exact natDigitsAux_digits m m c (List.mem_reverse.1 h)

theorem fracStr_length (e m : ℕ) (h : m < 10 ^ e) : (fracStr e m).length = e := by
  have hl : (natDigits m).length ≤ e := natDigitsAux_len m m e h
  simp [fracStr, List.length_replicate]
  omega

theorem parseDigits_fracStr (e m : ℕ) : parseDigits (fracStr e m) = m := by
  simp only [fracStr, parseDigits, List.map_append, List.map_replicate,
    List.reverse_append, List.reverse_replicate, List.map_reverse,
    List.reverse_reverse]
  have hz : charDigit '0' = 0 := rfl
  rw [hz, valLE_append_zeros]
  exact natDigitsAux_sound m m le_rfl

/-! ## takeWhile/dropWhile splitting lemmas -/

theorem takeWhile_append_of_sat {α : Type} (p : α → Bool) (A B : List α)
    (hA : ∀ a ∈ A, p a = true) (hB : B.takeWhile p = []) :
    (A ++ B).takeWhile p = A := by
  induction A with
  | nil => simpa using hB
  | cons a A ih =>
    simp [List.takeWhile_cons, hA a (List.mem_cons_self _ _),
      ih (fun x hx => hA x (List.mem_cons_of_mem _ hx))]

theorem dropWhile_append_of_sat {α : Type} (p : α → Bool) (A B : List α)
    (hA : ∀ a ∈ A, p a = true) (hB : B.takeWhile p = []) :
    (A ++ B).dropWhile p = B := by
  induction A with
  | nil =>
    cases B with
    | nil => rfl
    | cons b B =>
      simp only [List.takeWhile_cons] at hB
      cases hp : p b with
      | true => rw [hp] at hB; simp at hB
      | false => simp [List.dropWhile_cons, hp]
  | cons a A ih =>
    simp only [List.cons_append, List.dropWhile_cons,
      hA a (List.mem_cons_self _ _), if_true]
    exact ih (fun x hx => hA x (List.mem_cons_of_mem _ hx))

theorem takeWhile_eq_nil_of_head {α : Type} (p : α → Bool) (B : List α)
    (hB : ∀ b, B.head? = some b → p b = false) : B.takeWhile p = [] := by
  cases B with
  | nil => rfl
  | cons b B => simp [List.takeWhile_cons, hB b rfl]

/-! ## StepSize (src/StepSize.ts)

The unit enum, the validated constructor, the parse grammar
`^(\d+(?:\.\d+)?)(km|m|mi|ft)?$`, the URL string form, and unit
conversion.  The parser below takes the maximal digit run for each
numeral part; this is equivalent to the backtracking regex because the
unit suffixes contain no digits and must consume the entire remainder of
the string. -/

/-- Step size units for navigation/movement in the audio map. -/
inductive StepSizeUnit
  | Kilometers
  | Meters
  | Miles
  | Feet
deriving DecidableEq

/-- The enum's string value (`km`, `m`, `mi`, `ft`). -/
def StepSizeUnit.code : StepSizeUnit → String
  | .Kilometers => "km"
  | .Meters => "m"
  | .Miles => "mi"
  | .Feet => "ft"

/-- The two error conditions raised by StepSize: the constructor's
"Step size value must be positive" check and parse's "Invalid step size
format". -/
inductive StepSizeError
  | invalidArgument
  | formatError
deriving DecidableEq

/-- A step size with value and unit. -/
structure StepSize where
  value : ℚ
  unit : StepSizeUnit
deriving DecidableEq

/-- The private constructor (StepSize.ts lines 120-126): rejects any
value that is not strictly positive. -/
def StepSize.create (value : ℚ) (unit : StepSizeUnit) : Except StepSizeError StepSize :=
  if value ≤ 0 then .error .invalidArgument else .ok ⟨value, unit⟩

/-- Models `StepSize.Kilometers(value)`. -/
def StepSize.Kilometers (value : ℚ) : Except StepSizeError StepSize :=
  StepSize.create value .Kilometers

/-- Models `StepSize.Meters(value)`. -/
def StepSize.Meters (value : ℚ) : Except StepSizeError StepSize :=
  StepSize.create value .Meters

/-- Models `StepSize.Miles(value)`. -/
def StepSize.Miles (value : ℚ) : Except StepSizeError StepSize :=
  StepSize.create value .Miles

/-- Models `StepSize.Feet(value)`. -/
def StepSize.Feet (value : ℚ) : Except StepSizeError StepSize :=
  StepSize.create value .Feet

/-- The named-unit constructor for a given unit (dispatch helper over the
four static factory methods). -/
def StepSize.named (u : StepSizeUnit) (value : ℚ) : Except StepSizeError StepSize :=
  match u with
  | .Kilometers => StepSize.Kilometers value
  | .Meters => StepSize.Meters value
  | .Miles => StepSize.Miles value
  | .Feet => StepSize.Feet value

/-! ### Number rendering (JS default number-to-string, plain decimal)

`decExp q` is the least `k` such that `q` scaled by `10^k` is an integer
(the number of digits after the decimal point), and the mantissa is the
corresponding integer.  All arithmetic is over `q.num`/`q.den` so the
functions evaluate on concrete rationals. -/

/-- Scan upward from `k` for the least exponent whose power of ten the
denominator divides; the fuel is always sufficient for denominators that
divide some power of ten. -/
def decExpGo (d : ℕ) : ℕ → ℕ → ℕ
  | k, 0 => k
  | k, fuel + 1 => if 10 ^ k % d = 0 then k else decExpGo d (k + 1) fuel

/-- Number of decimal digits after the point in the exact rendering of
`q`. -/
def decExp (q : ℚ) : ℕ := decExpGo q.den 0 (q.den + 1)

/-- Whether `q` has a finite decimal expansion (its reduced denominator divides a
power of ten); every JavaScript number value does. -/
def FinDec (q : ℚ) : Prop := 10 ^ q.den % q.den = 0

instance FinDec.dec (q : ℚ) : Decidable (FinDec q) :=
  inferInstanceAs (Decidable (10 ^ q.den % q.den = 0))

/-- Rendering of a nonnegative rational with finite decimal expansion:
integer digits, then `.` and exactly `decExp q` fraction digits when the
value is not an integer. -/
def numToStringNN (q : ℚ) : String :=
  let e := decExp q
  let m := q.num.toNat * (10 ^ e / q.den)
  if e = 0 then natStr m
  else natStr (m / 10 ^ e) ++ "." ++ String.mk (fracStr e (m % 10 ^ e))

/-- The JS default number-to-string conversion (plain decimal range). -/
def numToString (q : ℚ) : String :=
  if q < 0 then "-" ++ numToStringNN (-q) else numToStringNN q

/-- Models `toString()` (StepSize.ts lines 175-177): value then unit code with no
separator. -/
def StepSize.toStr (s : StepSize) : String := numToString s.value ++ s.unit.code

/-! ### Parsing (StepSize.ts lines 160-170) -/

/-- The optional unit suffix group `(km|m|mi|ft)?` anchored at the end of
the string: `some none` when the suffix is absent, `some (some u)` for a
recognised unit, `none` when the remainder is not a unit.  The tests
mirror the regex alternation order. -/
def unitOfSuffix (cs : List Char) : Option (Option StepSizeUnit) :=
  if cs = [] then some none
  else if cs = ['k', 'm'] then some (some .Kilometers)
  else if cs = ['m'] then some (some .Meters)
  else if cs = ['m', 'i'] then some (some .Miles)
  else if cs = ['f', 't'] then some (some .Feet)
  else none

/-- Continue the regex match after the integer digit run `I`: an optional
`.` followed by one or more digits, then the optional unit suffix.  The
numeric value is `parseFloat` of the matched numeral, exact over ℚ. -/
def parseAfterDigits (I : List Char) : List Char → Option (ℚ × StepSizeUnit)
  | '.' :: r2 =>
    if r2.takeWhile Char.isDigit = [] then none
    else
      match unitOfSuffix (r2.dropWhile Char.isDigit) with
      | some u =>
        some ((parseDigits I : ℚ)
          + (parseDigits (r2.takeWhile Char.isDigit) : ℚ)
            / (10 : ℚ) ^ (r2.takeWhile Char.isDigit).length,
          u.getD .Meters)
      | none => none
  | r =>
    match unitOfSuffix r with
    | some u => some ((parseDigits I : ℚ), u.getD .Meters)
    | none => none

/-- Match a step-size string against the grammar and read its value; the
unit defaults to meters when the suffix is absent. -/
def parseNum (s : String) : Option (ℚ × StepSizeUnit) :=
  if s.data.takeWhile Char.isDigit = [] then none
  else parseAfterDigits (s.data.takeWhile Char.isDigit) (s.data.dropWhile Char.isDigit)

/-- Models `StepSize.parse` (lines 160-170): grammar failure raises the format
error; a matched numeral is handed to the constructor, which may still
reject a non-positive value. -/
def StepSize.parse (s : String) : Except StepSizeError StepSize :=
  match parseNum s with
  | none => .error .formatError
  | some (v, u) => StepSize.create v u

/-- The declarative reading of the regex's unit group. -/
def isUnitSuffix (U : List Char) : Prop :=
  U = [] ∨ U = ['k', 'm'] ∨ U = ['m'] ∨ U = ['m', 'i'] ∨ U = ['f', 't']

/-- The declarative reading of the whole parse grammar
`^(\d+(?:\.\d+)?)(km|m|mi|ft)?$`. -/
def matchesGrammar (s : String) : Prop :=
  ∃ I FP U, s.data = I ++ FP ++ U ∧ I ≠ [] ∧ (∀ c ∈ I, c.isDigit = true) ∧
    (FP = [] ∨ ∃ F, FP = '.' :: F ∧ F ≠ [] ∧ ∀ c ∈ F, c.isDigit = true) ∧
    isUnitSuffix U

/-! ### Conversion (StepSize.ts lines 98-103 and 182-221) -/

/-- Conversion factors from each unit to meters. -/
def METERS_PER_UNIT : StepSizeUnit → ℚ
  | .Meters => 1
  | .Kilometers => 1000
  | .Miles => 160934 / 100
  | .Feet => 3048 / 10000

/-- Models `convertTo(targetUnit)` (lines 182-192): same unit returns an
equal-valued copy, otherwise convert through meters; the result goes
through the validating constructor. -/
def StepSize.convertTo (s : StepSize) (targetUnit : StepSizeUnit) :
    Except StepSizeError StepSize :=
  if s.unit = targetUnit then StepSize.create s.value s.unit
  else
    StepSize.create (s.value * METERS_PER_UNIT s.unit / METERS_PER_UNIT targetUnit)
      targetUnit

/-- Models `toMeters()` (lines 197-199). -/
def StepSize.toMeters (s : StepSize) : Except StepSizeError StepSize :=
  s.convertTo .Meters

/-- Models `toKilometers()` (lines 204-206). -/
def StepSize.toKilometers (s : StepSize) : Except StepSizeError StepSize :=
  s.convertTo .Kilometers

/-- Models `toMiles()` (lines 211-213). -/
def StepSize.toMiles (s : StepSize) : Except StepSizeError StepSize :=
  s.convertTo .Miles

/-- Models `toFeet()` (lines 218-220). -/
def StepSize.toFeet (s : StepSize) : Except StepSizeError StepSize :=
  s.convertTo .Feet

/-! ### Rendering/parsing round-trip lemmas -/

theorem data_append (s t : String) : (s ++ t).data = s.data ++ t.data := rfl

theorem decExpGo_spec (d : ℕ) (fuel : ℕ) :
    ∀ k, 10 ^ (k + fuel) % d = 0 → 10 ^ decExpGo d k (fuel + 1) % d = 0 := by
  induction fuel with
  | zero =>
    intro k h
    simp only [decExpGo]
    rw [if_pos (by simpa using h)]
    simpa using h
  | succ fuel ih =>
    intro k h
    simp only [decExpGo]
    by_cases hk : 10 ^ k % d = 0
    · rw [if_pos hk]; exact hk
    · rw [if_neg hk]
      exact ih (k + 1) (by rw [show k + 1 + fuel = k + (fuel + 1) by omega]; exact h)

theorem decExp_spec (q : ℚ) (h : FinDec q) : 10 ^ decExp q % q.den = 0 := by
  have := decExpGo_spec q.den q.den 0 (by simpa [FinDec] using h)
  simpa [decExp] using this

theorem den_dvd_pow_decExp (q : ℚ) (h : FinDec q) : q.den ∣ 10 ^ decExp q :=
  Nat.dvd_iff_mod_eq_zero.2 (decExp_spec q h)

/-- The integer mantissa used by the renderer equals the value scaled by
the chosen power of ten. -/
theorem mantissa_cast (q : ℚ) (hq : 0 ≤ q) (h : FinDec q) :
    ((q.num.toNat * (10 ^ decExp q / q.den) : ℕ) : ℚ) = q * 10 ^ decExp q := by
  have hdvd : q.den ∣ 10 ^ decExp q := den_dvd_pow_decExp q h
  have hden : ((q.den : ℚ)) ≠ 0 := by
    exact_mod_cast q.den_pos.ne'
  have hnum : ((q.num.toNat : ℕ) : ℚ) = (q.num : ℚ) := by
    exact_mod_cast congrArg (Int.cast : ℤ → ℚ) (Int.toNat_of_nonneg (Rat.num_nonneg.2 hq))
  set E := decExp q
  rw [Nat.cast_mul, hnum, Nat.cast_div hdvd hden]
  conv_rhs => rw [← Rat.num_div_den q]
  push_cast
  ring

theorem natdiv_add_frac (m e : ℕ) :
    ((m / 10 ^ e : ℕ) : ℚ) + ((m % 10 ^ e : ℕ) : ℚ) / (10 : ℚ) ^ e
      = (m : ℚ) / (10 : ℚ) ^ e := by
  have h10 : ((10 : ℚ)) ^ e ≠ 0 := pow_ne_zero e (by norm_num)
  have key : m / 10 ^ e * 10 ^ e + m % 10 ^ e = m := by
    rw [mul_comm]; exact Nat.div_add_mod m (10 ^ e)
  rw [eq_div_iff h10, add_mul, div_mul_cancel₀ _ h10]
  exact_mod_cast key

theorem unitOfSuffix_code (u : StepSizeUnit) :
    unitOfSuffix (u.code).data = some (some u) := by
  cases u <;> rfl

theorem code_head_not_digit (u : StepSizeUnit) :
    ∀ c, (u.code).data.head? = some c → c.isDigit = false := by
  cases u <;> decide

theorem parseAfterDigits_code (I : List Char) (u : StepSizeUnit) :
    parseAfterDigits I (u.code).data = some ((parseDigits I : ℚ), u) := by
  cases u <;> rfl

/-- Models `parseNum` only looks at the string's character data, split at the
maximal leading digit run. -/
theorem parseNum_eq_of_data (s : String) (A B : List Char) (hs : s.data = A ++ B)
    (hA : ∀ c ∈ A, c.isDigit = true) (hAne : A ≠ [])
    (hB : B.takeWhile Char.isDigit = []) :
    parseNum s = parseAfterDigits A B := by
  simp only [parseNum, hs,
    takeWhile_append_of_sat Char.isDigit A B hA hB,
    dropWhile_append_of_sat Char.isDigit A B hA hB, if_neg hAne]

/-- Format round-trip: parsing the ASCII form of a positive rational with
finite decimal expansion recovers the value and unit exactly. -/
theorem parse_toStr_roundtrip (q : ℚ) (u : StepSizeUnit) (hq : 0 < q) (hfd : FinDec q) :
    StepSize.parse (StepSize.toStr ⟨q, u⟩) = .ok ⟨q, u⟩ := by
  have hq0 : ¬ q < 0 := not_lt.2 hq.le
  have hm : ((q.num.toNat * (10 ^ decExp q / q.den) : ℕ) : ℚ) = q * 10 ^ decExp q :=
    mantissa_cast q hq.le hfd
  set e := decExp q with he_def
  set m := q.num.toNat * (10 ^ e / q.den) with hm_def
  have hcreate : StepSize.create q u = .ok ⟨q, u⟩ := by
    rw [StepSize.create, if_neg (not_le.2 hq)]
  by_cases he : e = 0
  · -- integer rendering: digits of m, then the unit code
    have hmq : (m : ℚ) = q := by
      rw [hm, he, pow_zero, mul_one]
    have hs : (StepSize.toStr ⟨q, u⟩).data = (natStr m).data ++ (u.code).data := by
      have h1 : StepSize.toStr ⟨q, u⟩ = natStr m ++ u.code := by
        rw [StepSize.toStr]
        congr 1
        rw [numToString, if_neg hq0]
        simp only [numToStringNN, ← he_def, ← hm_def, if_pos he]
      rw [h1, data_append]
    rw [StepSize.parse,
      parseNum_eq_of_data _ _ _ hs (natStr_digits m) (natStr_ne_nil m)
        (takeWhile_eq_nil_of_head _ _ (code_head_not_digit u)),
      parseAfterDigits_code, parseDigits_natStr, hmq]
    exact hcreate
  · -- fractional rendering: integer digits, a point, e fraction digits
    have h10pos : 0 < 10 ^ e := Nat.pos_pow_of_pos e (by omega)
    have hmod : m % 10 ^ e < 10 ^ e := Nat.mod_lt _ h10pos
    have hfrlen : (fracStr e (m % 10 ^ e)).length = e := fracStr_length e _ hmod
    have hfrne : fracStr e (m % 10 ^ e) ≠ [] := by
      intro hcon
      rw [hcon] at hfrlen
      exact he hfrlen.symm
    have hdot : (("." : String)).data = ['.'] := rfl
    have hmk : (String.mk (fracStr e (m % 10 ^ e))).data = fracStr e (m % 10 ^ e) := rfl
    have hs : (StepSize.toStr ⟨q, u⟩).data
        = (natStr (m / 10 ^ e)).data
          ++ ('.' :: (fracStr e (m % 10 ^ e) ++ (u.code).data)) := by
      have h1 : StepSize.toStr ⟨q, u⟩
          = (natStr (m / 10 ^ e) ++ "." ++ String.mk (fracStr e (m % 10 ^ e))) ++ u.code := by
        rw [StepSize.toStr]
        congr 1
        rw [numToString, if_neg hq0]
        simp only [numToStringNN, ← he_def, ← hm_def, if_neg he]
      rw [h1, data_append, data_append, data_append, hdot, hmk]
      simp [List.append_assoc]
    have hB : ('.' :: (fracStr e (m % 10 ^ e) ++ (u.code).data)).takeWhile Char.isDigit
        = [] := by
      apply takeWhile_eq_nil_of_head
      intro b hb
      simp only [List.head?_cons, Option.some_inj] at hb
      subst hb
      decide
    rw [StepSize.parse,
      parseNum_eq_of_data _ _ _ hs (natStr_digits _) (natStr_ne_nil _) hB]
    simp only [parseAfterDigits]
    rw [takeWhile_append_of_sat Char.isDigit _ _ (fracStr_digits e _)
        (takeWhile_eq_nil_of_head _ _ (code_head_not_digit u)),
      dropWhile_append_of_sat Char.isDigit _ _ (fracStr_digits e _)
        (takeWhile_eq_nil_of_head _ _ (code_head_not_digit u)),
      if_neg hfrne, unitOfSuffix_code, parseDigits_natStr, parseDigits_fracStr, hfrlen]
    have hval : ((m / 10 ^ e : ℕ) : ℚ) + ((m % 10 ^ e : ℕ) : ℚ) / (10 : ℚ) ^ e = q := by
      rw [natdiv_add_frac, hm, mul_div_assoc, div_self (pow_ne_zero e (by norm_num)),
        mul_one]
    rw [hval]
    exact hcreate

/-! ### Grammar characterisation of the parser -/

theorem unitOfSuffix_some_imp (U : List Char) (u : Option StepSizeUnit)
    (h : unitOfSuffix U = some u) : isUnitSuffix U := by
  unfold unitOfSuffix at h
  split_ifs at h with h1 h2 h3 h4 h5
  · exact Or.inl h1
  · exact Or.inr (Or.inl h2)
  · exact Or.inr (Or.inr (Or.inl h3))
  · exact Or.inr (Or.inr (Or.inr (Or.inl h4)))
  · exact Or.inr (Or.inr (Or.inr (Or.inr h5)))

theorem unitOfSuffix_isSome_of (U : List Char) (h : isUnitSuffix U) :
    ∃ u, unitOfSuffix U = some u := by
  rcases h with h | h | h | h | h <;> subst h <;> exact ⟨_, rfl⟩

theorem unitSuffix_head_not_digit (U : List Char) (h : isUnitSuffix U) :
    ∀ c, U.head? = some c → c.isDigit = false := by
  rcases h with h | h | h | h | h <;> subst h <;> decide

/-- A successful match yields a grammar decomposition and a nonnegative
value (the numeral has no sign). -/
theorem parseNum_inversion (s : String) (v : ℚ) (u : StepSizeUnit)
    (h : parseNum s = some (v, u)) : matchesGrammar s ∧ 0 ≤ v := by
  rw [parseNum] at h
  set I := s.data.takeWhile Char.isDigit with hI
  set r := s.data.dropWhile Char.isDigit with hr
  have hsplit : s.data = I ++ r := (List.takeWhile_append_dropWhile _ _).symm
  have hIdig : ∀ c ∈ I, c.isDigit = true := fun c hc => List.mem_takeWhile_imp hc
  clear_value I r
  by_cases hIe : I = []
  · rw [if_pos hIe] at h; cases h
  · rw [if_neg hIe] at h
    rw [parseAfterDigits.eq_def] at h
    split at h
    · rename_i x0 r2
      set F := r2.takeWhile Char.isDigit with hF_def
      set U2 := r2.dropWhile Char.isDigit with hU2_def
      have hr2 : r2 = F ++ U2 := (List.takeWhile_append_dropWhile _ _).symm
      have hFdig : ∀ c ∈ F, c.isDigit = true := fun c hc => List.mem_takeWhile_imp hc
      clear_value F U2
      by_cases hF : F = []
      · rw [if_pos hF] at h; cases h
      · rw [if_neg hF] at h
        cases hu : unitOfSuffix U2 with
        | none => rw [hu] at h; cases h
        | some u' =>
          rw [hu] at h
          have hv : (parseDigits I : ℚ) + (parseDigits F : ℚ) / (10 : ℚ) ^ F.length
              = v := by
            have h2 := congrArg (fun o => Option.map Prod.fst o) h
            simpa using h2
          refine ⟨⟨I, '.' :: F, U2, ?_, hIe, hIdig,
            Or.inr ⟨F, rfl, hF, hFdig⟩,
            unitOfSuffix_some_imp _ _ hu⟩, ?_⟩
          · rw [hsplit, hr2]
            simp
          · rw [← hv]
            have h1 : (0 : ℚ) ≤ (parseDigits I : ℚ) := Nat.cast_nonneg _
            have h2 : (0 : ℚ) ≤ (parseDigits F : ℚ) / (10 : ℚ) ^ F.length :=
              div_nonneg (Nat.cast_nonneg _) (pow_nonneg (by norm_num) _)
            linarith
    · cases hu : unitOfSuffix r with
      | none => rw [hu] at h; cases h
      | some u' =>
        rw [hu] at h
        have hv : (parseDigits I : ℚ) = v := by
          have h2 := congrArg (fun o => Option.map Prod.fst o) h
          simpa using h2
        exact ⟨⟨I, [], r, by simp [hsplit], hIe, hIdig, Or.inl rfl,
          unitOfSuffix_some_imp _ _ hu⟩, hv ▸ Nat.cast_nonneg _⟩

/-- Every grammar decomposition is accepted by the parser. -/
theorem parseNum_isSome_of_matchesGrammar (s : String) (h : matchesGrammar s) :
    ∃ p, parseNum s = some p := by
  obtain ⟨I, FP, U, hs, hIne, hIdig, hFP, hU⟩ := h
  have hUhead : ∀ c, U.head? = some c → c.isDigit = false :=
    unitSuffix_head_not_digit U hU
  have hUtake : U.takeWhile Char.isDigit = [] :=
    takeWhile_eq_nil_of_head _ _ hUhead
  obtain ⟨u, hu⟩ := unitOfSuffix_isSome_of U hU
  rcases hFP with hFP | ⟨F, hFP, hFne, hFdig⟩
  · subst hFP
    have hs' : s.data = I ++ U := by simpa using hs
    rw [parseNum_eq_of_data s I U hs' hIdig hIne hUtake]
    rcases hU with h1 | h1 | h1 | h1 | h1 <;> subst h1 <;> exact ⟨_, rfl⟩
  · subst hFP
    have hB : ('.' :: (F ++ U)).takeWhile Char.isDigit = [] := by
      apply takeWhile_eq_nil_of_head
      intro b hb
      simp only [List.head?_cons, Option.some_inj] at hb
      subst hb
      decide
    have hs' : s.data = I ++ ('.' :: (F ++ U)) := by
      rw [hs]; simp [List.append_assoc]
    rw [parseNum_eq_of_data s I _ hs' hIdig hIne hB]
    simp only [parseAfterDigits]
    rw [takeWhile_append_of_sat Char.isDigit F U hFdig hUtake,
      dropWhile_append_of_sat Char.isDigit F U hFdig hUtake, if_neg hFne, hu]
    exact ⟨_, rfl⟩

/-- The parser rejects a string exactly when it does not match the
grammar. -/
theorem parseNum_none_iff (s : String) : parseNum s = none ↔ ¬ matchesGrammar s := by
  constructor
  · intro h hm
    obtain ⟨p, hp⟩ := parseNum_isSome_of_matchesGrammar s hm
    rw [h] at hp
    cases hp
  · intro h
    cases hp : parseNum s with
    | none => rfl
    | some p =>
      obtain ⟨v, u⟩ := p
      exact absurd (parseNum_inversion s v u hp).1 h

theorem create_pos (v : ℚ) (u : StepSizeUnit) (h : 0 < v) :
    StepSize.create v u = .ok ⟨v, u⟩ := by
  rw [StepSize.create, if_neg (not_le.2 h)]

theorem create_nonpos (v : ℚ) (u : StepSizeUnit) (h : v ≤ 0) :
    StepSize.create v u = .error .invalidArgument := by
  rw [StepSize.create, if_pos h]

theorem parse_eq_none (s : String) (h : parseNum s = none) :
    StepSize.parse s = .error .formatError := by
  simp [StepSize.parse, h]

theorem parse_eq_some (s : String) (v : ℚ) (u : StepSizeUnit)
    (h : parseNum s = some (v, u)) : StepSize.parse s = StepSize.create v u := by
  simp [StepSize.parse, h]

/-- Models `parse` reports the format error exactly on grammar failures. -/
theorem parse_formatError_iff (s : String) :
    StepSize.parse s = .error .formatError ↔ ¬ matchesGrammar s := by
  rw [← parseNum_none_iff]
  cases hp : parseNum s with
  | none => simp [parse_eq_none s hp]
  | some p =>
    obtain ⟨v, u⟩ := p
    rw [parse_eq_some s v u hp, StepSize.create]
    by_cases hv : v ≤ 0 <;> simp [hv]

/-- Models `parse` reports the must-be-positive error exactly on grammar matches
whose numeral denotes a non-positive (hence zero) value. -/
theorem parse_invalidArgument_iff (s : String) :
    StepSize.parse s = .error .invalidArgument ↔
      ∃ v u, parseNum s = some (v, u) ∧ v = 0 := by
  cases hp : parseNum s with
  | none =>
    rw [parse_eq_none s hp]
    simp
  | some p =>
    obtain ⟨v, u⟩ := p
    rw [parse_eq_some s v u hp, StepSize.create]
    have hnn : 0 ≤ v := (parseNum_inversion s v u hp).2
    by_cases hv : v ≤ 0
    · have hv0 : v = 0 := le_antisymm hv hnn
      simp only [if_pos hv]
      constructor
      · intro _
        exact ⟨v, u, rfl, hv0⟩
      · intro _
        trivial
    · simp only [if_neg hv]
      constructor
      · intro hcon
        cases hcon
      · rintro ⟨v', u', hvu, hv0⟩
        rw [Option.some_inj] at hvu
        have : v = v' := congrArg Prod.fst hvu
        exact absurd (this.trans hv0).le hv

/-! ## AudiomSource (src/AudiomSource.ts) -/

/-- Map type for rendering sources. -/
inductive MapType
  | Travel
  | Heatmap
  | Indoor
deriving DecidableEq

/-- The enum's string value. -/
def MapType.code : MapType → String
  | .Travel => "travel"
  | .Heatmap => "heatmap"
  | .Indoor => "indoor"

/-- A JS primitive parameter value (`string | number | boolean`). -/
inductive JsPrim
  | str (s : String)
  | num (q : ℚ)
  | bool (b : Bool)

/-- JS `String(true)` / `String(false)`. -/
def boolStr (b : Bool) : String := if b then "true" else "false"

/-- JS `String(value)` on a primitive parameter value. -/
def JsPrim.jsString : JsPrim → String
  | .str s => s
  | .num q => numToString q
  | .bool b => boolStr b

/-- JS truthiness filter on an optional string: the empty string is falsy,
so `if (x) { ... }` skips it. -/
def truthyStr (o : Option String) : Option String :=
  match o with
  | some s => if s = "" then none else some s
  | none => none

/-- A single Audiom data source configuration (fields are copied verbatim
from the input config; `type` holds the SourceType enum's string value or
an arbitrary string; `additionalParams` is a string-keyed record of
primitives in insertion order). -/
structure AudiomSource where
  source : String
  type : Option String := none
  mapType : Option MapType := none
  name : Option String := none
  url : Option String := none
  rules : Option String := none
  additionalParams : Option (List (String × JsPrim)) := none

/-- Models `fromName` (AudiomSource.ts lines 85-87). -/
def AudiomSource.fromName (sourceName : String) : AudiomSource :=
  { source := sourceName }

/-- Models `fromGeoJsonUrl` (lines 92-98); `geojson` is SourceType.GeoJSON's
string value. -/
def AudiomSource.fromGeoJsonUrl (url : String) (name : Option String) : AudiomSource :=
  { source := url, type := some "geojson", name := name }

/-- Models `fromEsri` (lines 103-118); `esri` is SourceType.ESRI's string
value. -/
def AudiomSource.fromEsri (source url : String) (name : Option String)
    (mapType : Option MapType) (rules : Option String) : AudiomSource :=
  { source := source, type := some "esri", url := some url, name := name,
    mapType := mapType, rules := rules }

/-- Models `toQueryParams` (lines 124-149): namespaced `<source>.<field>` keys
for each populated optional field, in the fixed field order, then the
additional params.  Each `if (this.x)` is a JS truthiness test, modelled
by `truthyStr`; a present `mapType` is always truthy because the enum's
string values are nonempty. -/
def AudiomSource.toQueryParams (s : AudiomSource) : Params :=
  let p1 := setIfSome [] (s.source ++ ".type") (truthyStr s.type)
  let p2 := setIfSome p1 (s.source ++ ".mapType") (s.mapType.map MapType.code)
  let p3 := setIfSome p2 (s.source ++ ".name") (truthyStr s.name)
  let p4 := setIfSome p3 (s.source ++ ".url") (truthyStr s.url)
  let p5 := setIfSome p4 (s.source ++ ".rules") (truthyStr s.rules)
  match s.additionalParams with
  | none => p5
  | some l =>
    l.foldl (fun ps kv => setParam ps (s.source ++ "." ++ kv.1) (kv.2.jsString)) p5

/-- Keys present after a `setIfSome` come from the old record or are the
key possibly set. -/
theorem mem_setIfSome (ps : Params) (k : String) (v : Option String)
    (kv : String × String) (h : kv ∈ setIfSome ps k v) : kv ∈ ps ∨ kv.1 = k := by
  cases v with
  | none => exact Or.inl h
  | some s => exact mem_setParam ps k s kv h

/-- Keys present after folding assignments come from the old record or
from the assigned keys. -/
theorem mem_foldl_setParam {α : Type} (f g : α → String) (l : List α) (ps : Params)
    (kv : String × String)
    (h : kv ∈ l.foldl (fun acc a => setParam acc (f a) (g a)) ps) :
    kv ∈ ps ∨ ∃ a ∈ l, kv.1 = f a := by
  induction l generalizing ps with
  | nil => exact Or.inl h
  | cons hd tl ih =>
    rw [List.foldl_cons] at h
    rcases ih _ h with h1 | h1
    · rcases mem_setParam _ _ _ _ h1 with h2 | h2
      · exact Or.inl h2
      · exact Or.inr ⟨hd, List.mem_cons_self _ _, h2⟩
    · obtain ⟨a, ha, hk⟩ := h1
      exact Or.inr ⟨a, List.mem_cons_of_mem _ ha, hk⟩

/-- Every key a source contributes is namespaced: it contains a dot. -/
theorem audiomSource_keys_dot (s : AudiomSource) :
    ∀ kv ∈ s.toQueryParams, '.' ∈ kv.1.data := by
  intro kv h
  have hfield : ∀ (b : String), '.' ∈ b.data → '.' ∈ (s.source ++ b).data := by
    intro b hb
    rw [data_append]
    exact List.mem_append_right _ hb
  have hextra : ∀ (k : String), '.' ∈ (s.source ++ "." ++ k).data := by
    intro k
    rw [data_append, data_append]
    exact List.mem_append_left _ (List.mem_append_right _ (by decide))
  rw [AudiomSource.toQueryParams] at h
  have h5 : ∀ kv' : String × String,
      kv' ∈ setIfSome (setIfSome (setIfSome (setIfSome (setIfSome []
          (s.source ++ ".type") (truthyStr s.type))
          (s.source ++ ".mapType") (s.mapType.map MapType.code))
          (s.source ++ ".name") (truthyStr s.name))
          (s.source ++ ".url") (truthyStr s.url))
          (s.source ++ ".rules") (truthyStr s.rules) →
      '.' ∈ kv'.1.data := by
    intro kv' h'
    rcases mem_setIfSome _ _ _ _ h' with h' | h'
    · rcases mem_setIfSome _ _ _ _ h' with h' | h'
      · rcases mem_setIfSome _ _ _ _ h' with h' | h'
        · rcases mem_setIfSome _ _ _ _ h' with h' | h'
          · rcases mem_setIfSome _ _ _ _ h' with h' | h'
            · cases h'
            · rw [h']; exact hfield _ (by decide)
          · rw [h']; exact hfield _ (by decide)
        · rw [h']; exact hfield _ (by decide)
      · rw [h']; exact hfield _ (by decide)
    · rw [h']; exact hfield _ (by decide)
  cases hap : s.additionalParams with
  | none =>
    rw [hap] at h
    exact h5 kv h
  | some l =>
    rw [hap] at h
    rcases mem_foldl_setParam (fun kv0 => s.source ++ "." ++ kv0.1)
        (fun kv0 => kv0.2.jsString) l _ kv h with h1 | h1
    · exact h5 kv h1
    · obtain ⟨a, _, hk⟩ := h1
      rw [hk]
      exact hextra _

/-! ## AudiomEmbedConfig (src/AudiomEmbedConfig.ts)

The post-construction state of a configuration (the constructor copies
each field; bare-string sources and string step sizes are normalised
before this state is reached) and its `toQueryParams` serialisation
(lines 173-240), modelled stage by stage in the source's order. -/

structure AudiomEmbedConfig where
  embedId : String
  apiKey : String
  sources : Option (List AudiomSource) := none
  center : Option (ℚ × ℚ) := none
  latitude : Option ℚ := none
  longitude : Option ℚ := none
  zoom : Option ℚ := none
  soundpack : Option String := none
  demo : Option Bool := none
  title : Option String := none
  showVisualMap : Option Bool := none
  heading : Option ℚ := none
  showHeading : Option Bool := none
  stepSize : Option StepSize := none
  additionalParams : Option (List (String × JsPrim)) := none

/-- Step 2 (lines 179-191): `if (this.sources && this.sources.length > 0)`
set the comma-joined `sources` key, then `Object.assign` each source's
namespaced params in source order. -/
def AudiomEmbedConfig.sourcesStep (c : AudiomEmbedConfig) (ps : Params) : Params :=
  match c.sources with
  | some l =>
    if 0 < l.length then
      let ps1 := setParam ps "sources"
        (String.intercalate "," (l.map (fun s => s.source)))
      l.foldl
        (fun acc s => (s.toQueryParams).foldl (fun a kv => setParam a kv.1 kv.2) acc)
        ps1
    else ps
  | none => ps

/-- Step 3 (lines 193-204): `center` takes precedence; otherwise
`latitude` and `longitude` are set independently when defined. -/
def AudiomEmbedConfig.centerStep (c : AudiomEmbedConfig) (ps : Params) : Params :=
  match c.center with
  | some lonlat =>
    setParam ps "center" (numToString lonlat.1 ++ "," ++ numToString lonlat.2)
  | none =>
    setIfSome (setIfSome ps "latitude" (c.latitude.map numToString))
      "longitude" (c.longitude.map numToString)

/-- Steps 4-5 (lines 206-230): definedness-checked fields (`zoom`, `demo`,
`showVisualMap`, `heading`, `showHeading`), truthiness-checked fields
(`soundpack`, `title`), and `stepsize` (all-lowercase key). -/
def AudiomEmbedConfig.optsStep (c : AudiomEmbedConfig) (ps : Params) : Params :=
  let p4 := setIfSome ps "zoom" (c.zoom.map numToString)
  let p5 := setIfSome p4 "soundpack" (truthyStr c.soundpack)
  let p6 := setIfSome p5 "demo" (c.demo.map boolStr)
  let p7 := setIfSome p6 "title" (truthyStr c.title)
  let p8 := setIfSome p7 "showVisualMap" (c.showVisualMap.map boolStr)
  let p9 := setIfSome p8 "heading" (c.heading.map numToString)
  let p10 := setIfSome p9 "showHeading" (c.showHeading.map boolStr)
  setIfSome p10 "stepsize" (c.stepSize.map StepSize.toStr)

/-- Step 6 (lines 233-237): merge `additionalParams` last, in insertion
order, stringifying each value. -/
def AudiomEmbedConfig.additionalStep (c : AudiomEmbedConfig) (ps : Params) : Params :=
  match c.additionalParams with
  | some l => l.foldl (fun acc kv => setParam acc kv.1 (kv.2.jsString)) ps
  | none => ps

/-- Models `toQueryParams` (lines 173-240): start from `apiKey`, then the stages
in order. -/
def AudiomEmbedConfig.toQueryParams (c : AudiomEmbedConfig) : Params :=
  c.additionalStep (c.optsStep (c.centerStep (c.sourcesStep [("apiKey", c.apiKey)])))

/-- Models `toUrl` (lines 245-252): unencoded key=value pairs joined by `&`. -/
def AudiomEmbedConfig.toUrl (c : AudiomEmbedConfig) (baseUrl : String) : String :=
  baseUrl ++ "/embed/" ++ c.embedId ++ "?"
    ++ String.intercalate "&" ((c.toQueryParams).map (fun kv => kv.1 ++ "=" ++ kv.2))

/-! ### Stage preservation lemmas -/

theorem getParam_sourcesStep_ne (c : AudiomEmbedConfig) (ps : Params) (k : String)
    (hk1 : k ≠ "sources") (hk2 : '.' ∉ k.data) :
    getParam (c.sourcesStep ps) k = getParam ps k := by
  have hkey : ∀ (s : AudiomSource) (kv : String × String),
      kv ∈ s.toQueryParams → kv.1 ≠ k := by
    intro s kv hkv hcon
    exact hk2 (hcon ▸ audiomSource_keys_dot s kv hkv)
  cases hsrc : c.sources with
  | none => simp only [AudiomEmbedConfig.sourcesStep, hsrc]
  | some l =>
    simp only [AudiomEmbedConfig.sourcesStep, hsrc]
    by_cases hlen : 0 < l.length
    · rw [if_pos hlen]
      have hfold : ∀ (L : List AudiomSource) (ps0 : Params),
          getParam (L.foldl
            (fun acc s => (s.toQueryParams).foldl (fun a kv => setParam a kv.1 kv.2) acc)
            ps0) k = getParam ps0 k := by
        intro L
        induction L with
        | nil => intro ps0; rfl
        | cons hd tl ih =>
          intro ps0
          rw [List.foldl_cons, ih]
          exact getParam_foldl_setParam_ne (fun kv => kv.1) (fun kv => kv.2)
            (hd.toQueryParams) ps0 k (fun kv hkv => hkey hd kv hkv)
      rw [hfold, getParam_setParam_ne _ _ _ _ hk1]
    · rw [if_neg hlen]

theorem getParam_centerStep_ne (c : AudiomEmbedConfig) (ps : Params) (k : String)
    (hk1 : k ≠ "center") (hk2 : k ≠ "latitude") (hk3 : k ≠ "longitude") :
    getParam (c.centerStep ps) k = getParam ps k := by
  cases hc : c.center with
  | some lonlat =>
    simp only [AudiomEmbedConfig.centerStep, hc]
    exact getParam_setParam_ne _ _ _ _ hk1
  | none =>
    simp only [AudiomEmbedConfig.centerStep, hc]
    rw [getParam_setIfSome_ne _ _ _ _ hk3, getParam_setIfSome_ne _ _ _ _ hk2]

theorem getParam_optsStep_ne (c : AudiomEmbedConfig) (ps : Params) (k : String)
    (h1 : k ≠ "zoom") (h2 : k ≠ "soundpack") (h3 : k ≠ "demo") (h4 : k ≠ "title")
    (h5 : k ≠ "showVisualMap") (h6 : k ≠ "heading") (h7 : k ≠ "showHeading")
    (h8 : k ≠ "stepsize") :
    getParam (c.optsStep ps) k = getParam ps k := by
  simp only [AudiomEmbedConfig.optsStep]
  rw [getParam_setIfSome_ne _ _ _ _ h8, getParam_setIfSome_ne _ _ _ _ h7,
    getParam_setIfSome_ne _ _ _ _ h6, getParam_setIfSome_ne _ _ _ _ h5,
    getParam_setIfSome_ne _ _ _ _ h4, getParam_setIfSome_ne _ _ _ _ h3,
    getParam_setIfSome_ne _ _ _ _ h2, getParam_setIfSome_ne _ _ _ _ h1]

theorem getParam_additionalStep_ne (c : AudiomEmbedConfig) (ps : Params) (k : String)
    (hk : ∀ l, c.additionalParams = some l → ∀ kv ∈ l, kv.1 ≠ k) :
    getParam (c.additionalStep ps) k = getParam ps k := by
  cases hap : c.additionalParams with
  | none => simp only [AudiomEmbedConfig.additionalStep, hap]
  | some l =>
    simp only [AudiomEmbedConfig.additionalStep, hap]
    exact getParam_foldl_setParam_ne (fun kv => kv.1) (fun kv => kv.2.jsString)
      l ps k (hk l hap)

/-! ## AudiomMessages (src/AudiomMessages.ts)

The shape predicate `isUserPositionMessage` over a model of JavaScript
runtime values, the dispatch performed by the window message listener,
and the add/remove/removeAll/dispose subscription state machine. -/

/-- A JavaScript runtime value, as far as the message pipeline inspects
one.  (`NaN` has no counterpart in the exact-rational idealisation.) -/
inductive JsValue
  | undefined
  | null
  | bool (b : Bool)
  | num (q : ℚ)
  | str (s : String)
  | arr (elems : List JsValue)
  | obj (fields : List (String × JsValue))

/-- JS truthiness. -/
def JsValue.truthy : JsValue → Bool
  | .undefined => false
  | .null => false
  | .bool b => b
  | .num q => decide (q ≠ 0)
  | .str s => decide (s ≠ "")
  | .arr _ => true
  | .obj _ => true

/-- Property read `x.f`: `undefined` on anything without that own
property. -/
def JsValue.getField : JsValue → String → JsValue
  | .obj fields, k =>
    match fields.find? (fun kv => kv.1 == k) with
    | some kv => kv.2
    | none => .undefined
  | _, _ => .undefined

/-- Models `Array.isArray`. -/
def JsValue.isArr : JsValue → Bool
  | .arr _ => true
  | _ => false

/-- Models `.length` of an array value (irrelevant default elsewhere; only read
behind an `isArray` check). -/
def JsValue.arrLength : JsValue → ℕ
  | .arr l => l.length
  | _ => 0

/-- Models `isUserPositionMessage` (AudiomMessages.ts lines 25-27): the message
is truthy, its `userPosition` field is an array, and that array has
exactly two elements.  The element types are not checked. -/
def isUserPositionMessage (message : JsValue) : Bool :=
  message.truthy && (message.getField "userPosition").isArr
    && ((message.getField "userPosition").arrLength == 2)

/-- The spec's wording of the shape predicate ("a two-element ordered
pair of numbers"), stated for comparison with the code's check. -/
def isNumericPair : JsValue → Bool
  | .arr [.num _, .num _] => true
  | _ => false

/-- The spec's shape predicate applied at the `userPosition` field. -/
def isNumericUserPositionMessage (message : JsValue) : Bool :=
  message.truthy && isNumericPair (message.getField "userPosition")

/-- The origin check (lines 82-84):
`if (this.allowedOrigin && event.origin !== this.allowedOrigin) return;`.
The filter string itself is tested for truthiness, so an empty filter
never blocks. -/
def originBlocked (allowedOrigin : Option String) (origin : String) : Bool :=
  match allowedOrigin with
  | some o => !(o == "") && !(origin == o)
  | none => false

/-- The body of the window message listener (lines 80-95): origin check,
shape check, then synchronous fan-out over the listener set in insertion
order.  The result lists the (listener id, argument) invocations
performed; a discarded event performs none and raises no error. -/
def deliverEvent (allowedOrigin : Option String) (listeners : List ℕ)
    (origin : String) (data : JsValue) : List (ℕ × JsValue) :=
  if originBlocked allowedOrigin origin then []
  else if isUserPositionMessage data then
    listeners.map (fun l => (l, data.getField "userPosition"))
  else []

/-- The mutable state of an AudiomMessageHandler: the registered listener
ids in insertion order (`Set` semantics) and whether the window message
listener is currently attached. -/
structure HandlerState where
  listeners : List ℕ
  attached : Bool

/-- The state right after the constructor runs. -/
def HandlerState.init : HandlerState := ⟨[], false⟩

/-- Models `Set.prototype.add`: duplicates collapse, insertion order kept. -/
def addListener (l : List ℕ) (x : ℕ) : List ℕ := if x ∈ l then l else l ++ [x]

/-- The handler's four mutating operations. -/
inductive HandlerOp
  | add (l : ℕ)
  | remove (l : ℕ)
  | removeAll
  | dispose

/-- One mutating call on the handler; besides the new state, the two
flags report whether the call attached (`window.addEventListener`) or
detached (`window.removeEventListener`) the channel subscription. -/
def handlerStep (s : HandlerState) : HandlerOp → HandlerState × Bool × Bool :=
  fun op =>
  match op with
  | .add l =>
    -- addUserPositionListener (49-52) then ensureListening (75-95)
    (⟨addListener s.listeners l, true⟩, !s.attached, false)
  | .remove l =>
    -- removeUserPositionListener (57-62); stopListening (100-105) only
    -- removes the window listener when one is attached
    if (s.listeners.erase l).length = 0 then
      (⟨s.listeners.erase l, false⟩, false, s.attached)
    else (⟨s.listeners.erase l, s.attached⟩, false, false)
  | .removeAll => (⟨[], false⟩, false, s.attached)
  | .dispose =>
    -- dispose (110-112) delegates to removeAllListeners (67-70)
    (⟨[], false⟩, false, s.attached)

/-- The handler state after a sequence of calls, from the constructor
state. -/
def handlerRun (ops : List HandlerOp) : HandlerState :=
  ops.foldl (fun s op => (handlerStep s op).1) HandlerState.init

/-! ### Handler state machine lemmas -/

theorem addListener_ne_nil (l : List ℕ) (x : ℕ) : addListener l x ≠ [] := by
  rw [addListener]
  split_ifs with h
  · intro hcon
    rw [hcon] at h
    cases h
  · simp

theorem handlerStep_preserves_inv (s : HandlerState)
    (h : s.attached = true ↔ s.listeners ≠ []) (op : HandlerOp) :
    (handlerStep s op).1.attached = true ↔ (handlerStep s op).1.listeners ≠ [] := by
  cases op with
  | add l => simp [handlerStep, addListener_ne_nil]
  | remove l =>
    simp only [handlerStep]
    by_cases hlen : (s.listeners.erase l).length = 0
    · rw [if_pos hlen]
      simp [List.length_eq_zero.1 hlen]
    · rw [if_neg hlen]
      have hne : s.listeners.erase l ≠ [] := by
        intro hcon
        exact hlen (by rw [hcon]; rfl)
      have hsl : s.listeners ≠ [] := by
        intro hcon
        rw [hcon] at hne
        exact hne rfl
      simp [hne, h.mpr hsl]
  | removeAll => simp [handlerStep]
  | dispose => simp [handlerStep]

theorem handlerRun_invariant (ops : List HandlerOp) :
    (handlerRun ops).attached = true ↔ (handlerRun ops).listeners ≠ [] := by
  have main : ∀ (L : List HandlerOp) (s : HandlerState),
      (s.attached = true ↔ s.listeners ≠ []) →
      ((L.foldl (fun s op => (handlerStep s op).1) s).attached = true ↔
        (L.foldl (fun s op => (handlerStep s op).1) s).listeners ≠ []) := by
    intro L
    induction L with
    | nil => intro s hs; exact hs
    | cons hd tl ih =>
      intro s hs
      exact ih _ (handlerStep_preserves_inv s hs hd)
  exact main ops HandlerState.init (by simp [HandlerState.init])

/-! ### Dispatch fan-out lemmas -/

theorem filter_map_pair_not_mem (tl : List ℕ) (v : JsValue) (l : ℕ) (h : l ∉ tl) :
    (tl.map (fun x => (x, v))).filter (fun pr => pr.1 == l) = [] := by
  rw [List.filter_eq_nil_iff]
  intro pr hpr
  obtain ⟨x, hx, rfl⟩ := List.mem_map.1 hpr
  simp only [beq_iff_eq]
  exact fun hcon => h (hcon ▸ hx)

/-- In a duplicate-free listener list, the fan-out invokes each listener
exactly once, with the position argument. -/
theorem filter_map_pair (L : List ℕ) (v : JsValue) (l : ℕ)
    (hnd : L.Nodup) (hl : l ∈ L) :
    (L.map (fun x => (x, v))).filter (fun pr => pr.1 == l) = [(l, v)] := by
  induction L with
  | nil => cases hl
  | cons hd tl ih =>
    rw [List.nodup_cons] at hnd
    rcases List.mem_cons.1 hl with h | h
    · subst h
      rw [List.map_cons, List.filter_cons_of_pos (by simp),
        filter_map_pair_not_mem tl v l hnd.1]
    · have hne : hd ≠ l := fun hcon => hnd.1 (hcon ▸ h)
      rw [List.map_cons, List.filter_cons_of_neg (by simp [hne])]
      exact ih hnd.2 h

theorem getParam_preOpts_none (c : AudiomEmbedConfig) (k : String)
    (h1 : k ≠ "apiKey") (h2 : k ≠ "sources") (h3 : '.' ∉ k.data)
    (h4 : k ≠ "center") (h5 : k ≠ "latitude") (h6 : k ≠ "longitude") :
    getParam (c.centerStep (c.sourcesStep [("apiKey", c.apiKey)])) k = none := by
  rw [getParam_centerStep_ne _ _ _ h4 h5 h6, getParam_sourcesStep_ne _ _ _ h2 h3]
  simp only [getParam]
  rw [if_neg (fun hh : "apiKey" = k => h1 hh.symm)]

/-! ## The claims -/

/-- C1 (amended): with a configured non-empty origin filter, an event
from a different origin invokes zero callbacks.  When the filter passes
(absent, empty — the JS truthiness check skips an empty filter — or
matching), the callbacks fire exactly when the payload is truthy and
carries a TWO-ELEMENT ARRAY under `userPosition` (element types are not
checked, unlike the claim's "pair of numbers"); then every registered
callback is invoked exactly once with that array, and any other payload
invokes no callback and raises no error. -/
theorem message_dispatch_filter_and_shape
    (flt : Option String) (L : List ℕ) (origin : String) (data : JsValue)
    (hnd : L.Nodup) :
    (∀ o, flt = some o → o ≠ "" → origin ≠ o →
      deliverEvent flt L origin data = []) ∧
    (originBlocked flt origin = false →
      (isUserPositionMessage data = true →
        deliverEvent flt L origin data
            = L.map (fun l => (l, data.getField "userPosition")) ∧
        ∀ l ∈ L, (deliverEvent flt L origin data).filter (fun pr => pr.1 == l)
            = [(l, data.getField "userPosition")]) ∧
      (isUserPositionMessage data = false → deliverEvent flt L origin data = [])) := by
  constructor
  · intro o ho hne hdiff
    subst ho
    rw [deliverEvent, if_pos]
    rw [originBlocked]
    simp [hne, hdiff]
  · intro hblk
    constructor
    · intro hmsg
      rw [deliverEvent, if_neg (by rw [hblk]; exact Bool.false_ne_true), if_pos hmsg]
      exact ⟨rfl, fun l hl => filter_map_pair L _ l hnd hl⟩
    · intro hmsg
      rw [deliverEvent, if_neg (by rw [hblk]; exact Bool.false_ne_true),
        if_neg (by rw [hmsg]; exact Bool.false_ne_true)]

/-- C1: the claim as stated is false on the code.  First: a payload whose
`userPosition` is a two-element array of STRINGS is not a pair of numbers,
yet it triggers the callback (the guard checks only `Array.isArray` and
`length === 2`).  Second: with the origin filter configured as the empty
string, an event from a different origin still triggers the callback (the
filter is tested for JS truthiness before the comparison). -/
theorem message_dispatch_counterexample :
    (isNumericUserPositionMessage
        (.obj [("userPosition", .arr [.str "a", .str "b"])]) = false ∧
      deliverEvent none [0] "https://a"
          (.obj [("userPosition", .arr [.str "a", .str "b"])])
        = [(0, .arr [.str "a", .str "b"])]) ∧
    (deliverEvent (some "") [0] "https://b"
        (.obj [("userPosition", .arr [.num 1, .num 2])])
      = [(0, .arr [.num 1, .num 2])]) :=
  ⟨⟨rfl, rfl⟩, rfl⟩

/-- C1 witness: with filter `https://a`, listeners 0 and 1 and a matching
origin, a `{userPosition:[1,2]}` payload invokes both callbacks exactly
once with the array. -/
theorem message_dispatch_witness :
    deliverEvent (some "https://a") [0, 1] "https://a"
        (.obj [("userPosition", .arr [.num 1, .num 2])])
      = [0, 1].map (fun l =>
          (l, JsValue.getField (.obj [("userPosition", .arr [.num 1, .num 2])])
            "userPosition")) :=
  (((message_dispatch_filter_and_shape (some "https://a") [0, 1] "https://a"
    (.obj [("userPosition", .arr [.num 1, .num 2])]) (by decide)).2
      (by decide)).1 (by decide)).1

/-- C2: the window subscription exists exactly while the callback set is
non-empty, over every operation sequence from the constructor state;
`addEventListener` is called exactly on an add that finds the set empty,
and `removeEventListener` exactly when a non-empty set becomes empty
(`remove` reaching zero, or `removeAll`/`dispose` on a non-empty set). -/
theorem handler_subscription_iff_listeners :
    ∀ ops : List HandlerOp,
      ((handlerRun ops).attached = true ↔ (handlerRun ops).listeners ≠ []) ∧
      ∀ op : HandlerOp,
        ((handlerStep (handlerRun ops) op).2.1 = true ↔
          ((handlerRun ops).listeners = [] ∧ ∃ n, op = .add n)) ∧
        ((handlerStep (handlerRun ops) op).2.2 = true ↔
          ((handlerRun ops).listeners ≠ [] ∧
            (handlerStep (handlerRun ops) op).1.listeners = [])) := by
  intro ops
  have hinv := handlerRun_invariant ops
  refine ⟨hinv, ?_⟩
  intro op
  set s := handlerRun ops with hs
  constructor
  · cases op with
    | add n =>
      simp only [handlerStep]
      constructor
      · intro hsub
        refine ⟨?_, ⟨n, rfl⟩⟩
        by_contra hne
        rw [hinv.mpr hne] at hsub
        cases hsub
      · rintro ⟨hemp, -⟩
        have hat : ¬ s.attached = true := fun hat => (hinv.mp hat) hemp
        cases hcase : s.attached
        · rfl
        · exact absurd hcase hat
    | remove n =>
      simp only [handlerStep]
      by_cases hlen : (s.listeners.erase n).length = 0
      · rw [if_pos hlen]; simp
      · rw [if_neg hlen]; simp
    | removeAll => simp [handlerStep]
    | dispose => simp [handlerStep]
  · cases op with
    | add n =>
      simp only [handlerStep]
      simp [addListener_ne_nil]
    | remove n =>
      simp only [handlerStep]
      by_cases hlen : (s.listeners.erase n).length = 0
      · rw [if_pos hlen]
        simpa [List.length_eq_zero.1 hlen] using hinv
      · rw [if_neg hlen]
        have hne : s.listeners.erase n ≠ [] := by
          intro hcon
          exact hlen (by rw [hcon]; rfl)
        simp [hne]
    | removeAll =>
      simp only [handlerStep]
      simpa using hinv
    | dispose =>
      simp only [handlerStep]
      simpa using hinv

/-- C3: for every positive value with a finite decimal expansion (every
JavaScript number value has one in the exact-rational idealisation) and
every unit, the named-unit constructor succeeds and parsing the
`toString` form returns an equal StepSize: same value, same unit. -/
theorem stepsize_format_roundtrip (v : ℚ) (u : StepSizeUnit) (hv : 0 < v)
    (hfd : FinDec v) :
    StepSize.named u v = .ok ⟨v, u⟩ ∧
    StepSize.parse (StepSize.toStr ⟨v, u⟩) = .ok ⟨v, u⟩ := by
  refine ⟨?_, parse_toStr_roundtrip v u hv hfd⟩
  cases u <;>
    simp [StepSize.named, StepSize.Kilometers, StepSize.Meters, StepSize.Miles,
      StepSize.Feet, StepSize.create, not_le.2 hv]

/-- C3 witness: the round trip at value 5/2 and unit kilometres (rendered
"2.5km"). -/
theorem stepsize_roundtrip_witness :
    (0 : ℚ) < (⟨5, 2, by decide, by decide⟩ : ℚ) ∧
    StepSize.parse (StepSize.toStr ⟨(⟨5, 2, by decide, by decide⟩ : ℚ), .Kilometers⟩)
      = .ok ⟨(⟨5, 2, by decide, by decide⟩ : ℚ), .Kilometers⟩ :=
  ⟨by decide,
    (stepsize_format_roundtrip (⟨5, 2, by decide, by decide⟩ : ℚ) .Kilometers
      (by decide) (by decide)).2⟩

/-- C7: each named-unit constructor rejects every non-positive value with
the must-be-positive condition and succeeds on every positive value with
that value and unit; `parse` reports the format error exactly on strings
outside the grammar; and every string with a leading minus sign reports
the format error (never the must-be-positive condition). -/
theorem stepsize_error_kinds :
    (∀ v : ℚ, v ≤ 0 →
      StepSize.Kilometers v = .error .invalidArgument ∧
      StepSize.Meters v = .error .invalidArgument ∧
      StepSize.Miles v = .error .invalidArgument ∧
      StepSize.Feet v = .error .invalidArgument) ∧
    (∀ v : ℚ, 0 < v →
      StepSize.Kilometers v = .ok ⟨v, .Kilometers⟩ ∧
      StepSize.Meters v = .ok ⟨v, .Meters⟩ ∧
      StepSize.Miles v = .ok ⟨v, .Miles⟩ ∧
      StepSize.Feet v = .ok ⟨v, .Feet⟩) ∧
    (∀ s, StepSize.parse s = .error .formatError ↔ ¬ matchesGrammar s) ∧
    (∀ t : String, StepSize.parse ("-" ++ t) = .error .formatError) := by
  refine ⟨?_, ?_, parse_formatError_iff, ?_⟩
  · intro v hv
    exact ⟨create_nonpos v _ hv, create_nonpos v _ hv, create_nonpos v _ hv,
      create_nonpos v _ hv⟩
  · intro v hv
    exact ⟨create_pos v _ hv, create_pos v _ hv, create_pos v _ hv,
      create_pos v _ hv⟩
  · intro t
    apply parse_eq_none
    rw [parseNum]
    have hd : (("-" ++ t)).data = '-' :: t.data := rfl
    have hmd : ('-').isDigit = false := by decide
    rw [hd, List.takeWhile_cons, hmd]
    simp

/-- C7 witness: `Meters(-5)` reports the must-be-positive condition and
`parse("-3m")` reports the format error. -/
theorem stepsize_error_kinds_witness :
    StepSize.Meters (-5) = .error .invalidArgument ∧
    StepSize.parse ("-" ++ "3m") = .error .formatError :=
  ⟨(stepsize_error_kinds.1 (-5) (by decide)).2.1, stepsize_error_kinds.2.2.2 "3m"⟩

theorem METERS_PER_UNIT_pos (u : StepSizeUnit) : 0 < METERS_PER_UNIT u := by
  cases u <;> norm_num [METERS_PER_UNIT]

/-- C8: `convertTo` returns a new instance whose value is the receiver's
value times the meters-per-unit factor of its unit divided by the target
unit's factor (for equal units the copy has the unchanged value, which in
exact arithmetic coincides with that formula), and converting the result
to the same unit again is the identity; the embedding is purely
functional, so the receiver is unchanged. -/
theorem convertTo_value_and_idempotent (x : StepSize) (t : StepSizeUnit)
    (hx : 0 < x.value) :
    StepSize.convertTo x t
        = .ok ⟨x.value * METERS_PER_UNIT x.unit / METERS_PER_UNIT t, t⟩ ∧
    (StepSize.convertTo x t).bind (fun y => StepSize.convertTo y t)
        = StepSize.convertTo x t := by
  have hfs : 0 < METERS_PER_UNIT x.unit := METERS_PER_UNIT_pos x.unit
  have hft : 0 < METERS_PER_UNIT t := METERS_PER_UNIT_pos t
  have hval : 0 < x.value * METERS_PER_UNIT x.unit / METERS_PER_UNIT t :=
    div_pos (mul_pos hx hfs) hft
  have hmain : StepSize.convertTo x t
      = .ok ⟨x.value * METERS_PER_UNIT x.unit / METERS_PER_UNIT t, t⟩ := by
    rw [StepSize.convertTo]
    by_cases hu : x.unit = t
    · subst hu
      rw [if_pos rfl, create_pos _ _ hx, mul_div_assoc, div_self hfs.ne', mul_one]
    · rw [if_neg hu, create_pos _ _ hval]
  refine ⟨hmain, ?_⟩
  rw [hmain]
  have hbind : (Except.ok
        (⟨x.value * METERS_PER_UNIT x.unit / METERS_PER_UNIT t, t⟩ : StepSize)
        : Except StepSizeError StepSize).bind (fun y => StepSize.convertTo y t)
      = StepSize.convertTo
        ⟨x.value * METERS_PER_UNIT x.unit / METERS_PER_UNIT t, t⟩ t := rfl
  rw [hbind, StepSize.convertTo, if_pos rfl]
  exact create_pos _ _ hval

/-- C8 witness: 2km converted to meters. -/
theorem convertTo_witness :
    StepSize.convertTo ⟨2, .Kilometers⟩ .Meters
      = .ok ⟨2 * METERS_PER_UNIT .Kilometers / METERS_PER_UNIT .Meters, .Meters⟩ :=
  (convertTo_value_and_idempotent ⟨2, .Kilometers⟩ .Meters (by decide)).1

/-- C10: a string that matches the grammar with numeral value zero is not
a format error: `parse` passes the grammar check and reports the
constructor's must-be-positive condition; and the two error kinds
partition parse failures by whether the string matches the grammar (format
error exactly on grammar failures, must-be-positive exactly on matches
whose value is zero — matched numerals are never negative). -/
theorem stepsize_zero_value_errors :
    (∀ s v u, parseNum s = some (v, u) → v = 0 →
      matchesGrammar s ∧ StepSize.parse s = .error .invalidArgument) ∧
    (∀ s, StepSize.parse s = .error .formatError ↔ parseNum s = none) ∧
    (∀ s, StepSize.parse s = .error .invalidArgument ↔
      ∃ v u, parseNum s = some (v, u) ∧ v = 0) := by
  refine ⟨?_, ?_, parse_invalidArgument_iff⟩
  · intro s v u hp hv0
    refine ⟨(parseNum_inversion s v u hp).1, ?_⟩
    rw [parse_eq_some s v u hp]
    exact create_nonpos v u hv0.le
  · intro s
    rw [parse_formatError_iff, parseNum_none_iff]

/-- C10 witness: "0" matches the grammar, denotes zero, and parses to the
must-be-positive condition. -/
theorem stepsize_zero_witness :
    parseNum "0" = some (0, .Meters) ∧
    StepSize.parse "0" = .error .invalidArgument := by
  have h1 : parseNum "0" = some (0, .Meters) := by decide
  exact ⟨h1, (stepsize_zero_value_errors.1 "0" 0 .Meters h1 rfl).2⟩

/-- C4: every key of the additionalParams record ends up in
`toQueryParams` bound to its stringified additionalParams value — the
merge happens last, in insertion order, and overwrites any
identically-named key set by the earlier steps. -/
theorem additionalParams_merge_last (c : AudiomEmbedConfig)
    (l : List (String × JsPrim)) (k : String) (v : JsPrim)
    (hl : c.additionalParams = some l) (hnd : (l.map Prod.fst).Nodup)
    (hkv : (k, v) ∈ l) :
    getParam c.toQueryParams k = some v.jsString := by
  rw [AudiomEmbedConfig.toQueryParams]
  simp only [AudiomEmbedConfig.additionalStep, hl]
  exact getParam_foldl_setParam_mem Prod.fst (fun kv => kv.2.jsString) l _ (k, v)
    hnd hkv

/-- C4 witness: an additionalParams entry named `apiKey` overwrites the
`apiKey` key set in step 1. -/
theorem additionalParams_merge_witness :
    getParam (AudiomEmbedConfig.toQueryParams
      { embedId := "dynamic", apiKey := "k",
        additionalParams := some [("apiKey", .str "override"), ("custom", .str "1")] })
      "apiKey" = some "override" :=
  additionalParams_merge_last _ [("apiKey", .str "override"), ("custom", .str "1")]
    "apiKey" (.str "override") rfl (by decide) (List.mem_cons_self _ _)

theorem string_data_inj (b c : String) (h : b.data = c.data) : b = c := by
  cases b
  cases c
  exact congrArg String.mk h

theorem append_ne_of_ne (a b c : String) (h : b ≠ c) : a ++ b ≠ a ++ c := by
  intro hcon
  have hd := congrArg String.data hcon
  rw [data_append, data_append] at hd
  exact h (string_data_inj b c (List.append_cancel_left hd))

theorem mapType_code_ne_empty (m : MapType) : MapType.code m ≠ "" := by
  cases m <;> decide

/-- C9: the ESRI factory at the claim's input produces exactly the three
namespaced entries, and generally (name and rules omitted, nonempty url)
the output binds `<source>.type` to `esri`, `<source>.url` to the url,
`<source>.mapType` to the map type when given, binds no `.name` or
`.rules` key, and contains no empty-string value. -/
theorem fromEsri_query_params :
    (AudiomSource.toQueryParams
        (AudiomSource.fromEsri "units" "https://x" none (some .Indoor) none)
      = [("units.type", "esri"), ("units.mapType", "indoor"),
         ("units.url", "https://x")]) ∧
    (∀ (src url : String) (mt : Option MapType), url ≠ "" →
      getParam (AudiomSource.toQueryParams
          (AudiomSource.fromEsri src url none mt none)) (src ++ ".type")
        = some "esri" ∧
      getParam (AudiomSource.toQueryParams
          (AudiomSource.fromEsri src url none mt none)) (src ++ ".url")
        = some url ∧
      (∀ m, mt = some m →
        getParam (AudiomSource.toQueryParams
            (AudiomSource.fromEsri src url none mt none)) (src ++ ".mapType")
          = some m.code) ∧
      getParam (AudiomSource.toQueryParams
          (AudiomSource.fromEsri src url none mt none)) (src ++ ".name") = none ∧
      getParam (AudiomSource.toQueryParams
          (AudiomSource.fromEsri src url none mt none)) (src ++ ".rules") = none ∧
      ∀ kv ∈ AudiomSource.toQueryParams
          (AudiomSource.fromEsri src url none mt none), kv.2 ≠ "") := by
  constructor
  · decide
  · intro src url mt hurl
    have htu : src ++ ".type" ≠ src ++ ".url" :=
      append_ne_of_ne src _ _ (by decide)
    have hmu : src ++ ".mapType" ≠ src ++ ".url" :=
      append_ne_of_ne src _ _ (by decide)
    have htm : src ++ ".type" ≠ src ++ ".mapType" :=
      append_ne_of_ne src _ _ (by decide)
    have hqp : AudiomSource.toQueryParams (AudiomSource.fromEsri src url none mt none)
        = (match mt with
          | some m => [(src ++ ".type", "esri"), (src ++ ".mapType", m.code),
              (src ++ ".url", url)]
          | none => [(src ++ ".type", "esri"), (src ++ ".url", url)]) := by
      cases mt with
      | none =>
        simp [AudiomSource.toQueryParams, AudiomSource.fromEsri, truthyStr,
          setIfSome, setParam, hurl, htu]
      | some m =>
        simp [AudiomSource.toQueryParams, AudiomSource.fromEsri, truthyStr,
          setIfSome, setParam, hurl, htu, hmu, htm]
    have htn : src ++ ".type" ≠ src ++ ".name" :=
      append_ne_of_ne src _ _ (by decide)
    have hmn : src ++ ".mapType" ≠ src ++ ".name" :=
      append_ne_of_ne src _ _ (by decide)
    have hun : src ++ ".url" ≠ src ++ ".name" :=
      append_ne_of_ne src _ _ (by decide)
    have htr : src ++ ".type" ≠ src ++ ".rules" :=
      append_ne_of_ne src _ _ (by decide)
    have hmr : src ++ ".mapType" ≠ src ++ ".rules" :=
      append_ne_of_ne src _ _ (by decide)
    have hur : src ++ ".url" ≠ src ++ ".rules" :=
      append_ne_of_ne src _ _ (by decide)
    cases mt with
    | none =>
      simp only [hqp]
      refine ⟨by simp [getParam], by simp [getParam, htu], ?_, ?_, ?_, ?_⟩
      · intro m hm; cases hm
      · simp [getParam, htn, hun]
      · simp [getParam, htr, hur]
      · intro kv hkv
        rcases List.mem_cons.1 hkv with h | h
        · rw [h]; show ("esri" : String) ≠ ""; decide
        · rcases List.mem_cons.1 h with h | h
          · rw [h]; exact hurl
          · cases h
    | some m =>
      simp only [hqp]
      refine ⟨by simp [getParam], by simp [getParam, htu, hmu], ?_, ?_, ?_, ?_⟩
      · intro m' hm
        rw [Option.some_inj] at hm
        subst hm
        simp [getParam, htm]
      · simp [getParam, htn, hmn, hun]
      · simp [getParam, htr, hmr, hur]
      · intro kv hkv
        rcases List.mem_cons.1 hkv with h | h
        · rw [h]; show ("esri" : String) ≠ ""; decide
        · rcases List.mem_cons.1 h with h | h
          · rw [h]; exact mapType_code_ne_empty m
          · rcases List.mem_cons.1 h with h | h
            · rw [h]; exact hurl
            · cases h

/-- C5 (amended): provided additionalParams — which is merged last and
overwrites anything (see C4) — binds none of the keys `center`,
`latitude`, `longitude`: when center is present, `toQueryParams` binds
`center` to the longitude-first `"<lon>,<lat>"` string (comma, no space)
and binds no latitude or longitude key; when center is absent, the
latitude and longitude keys are bound, each independently of the other,
exactly when the corresponding field is defined, to its rendered value. -/
theorem center_precedence_emission (c : AudiomEmbedConfig)
    (hadd : ∀ l, c.additionalParams = some l → ∀ kv ∈ l,
      kv.1 ≠ "center" ∧ kv.1 ≠ "latitude" ∧ kv.1 ≠ "longitude") :
    (∀ lon lat, c.center = some (lon, lat) →
      getParam c.toQueryParams "center"
          = some (numToString lon ++ "," ++ numToString lat) ∧
      getParam c.toQueryParams "latitude" = none ∧
      getParam c.toQueryParams "longitude" = none) ∧
    (c.center = none →
      getParam c.toQueryParams "latitude" = c.latitude.map numToString ∧
      getParam c.toQueryParams "longitude" = c.longitude.map numToString) := by
  constructor
  · intro lon lat hcen
    refine ⟨?_, ?_, ?_⟩
    · rw [AudiomEmbedConfig.toQueryParams,
        getParam_additionalStep_ne _ _ _ (fun l hl kv hkv => (hadd l hl kv hkv).1),
        getParam_optsStep_ne _ _ _ (by decide) (by decide) (by decide) (by decide)
          (by decide) (by decide) (by decide) (by decide)]
      simp only [AudiomEmbedConfig.centerStep, hcen]
      exact getParam_setParam_self _ _ _
    · rw [AudiomEmbedConfig.toQueryParams,
        getParam_additionalStep_ne _ _ _ (fun l hl kv hkv => (hadd l hl kv hkv).2.1),
        getParam_optsStep_ne _ _ _ (by decide) (by decide) (by decide) (by decide)
          (by decide) (by decide) (by decide) (by decide)]
      simp only [AudiomEmbedConfig.centerStep, hcen]
      rw [getParam_setParam_ne _ _ _ _ (by decide),
        getParam_sourcesStep_ne _ _ _ (by decide) (by decide)]
      simp only [getParam]
      rw [if_neg (by decide : ¬ ("apiKey" = "latitude"))]
    · rw [AudiomEmbedConfig.toQueryParams,
        getParam_additionalStep_ne _ _ _ (fun l hl kv hkv => (hadd l hl kv hkv).2.2),
        getParam_optsStep_ne _ _ _ (by decide) (by decide) (by decide) (by decide)
          (by decide) (by decide) (by decide) (by decide)]
      simp only [AudiomEmbedConfig.centerStep, hcen]
      rw [getParam_setParam_ne _ _ _ _ (by decide),
        getParam_sourcesStep_ne _ _ _ (by decide) (by decide)]
      simp only [getParam]
      rw [if_neg (by decide : ¬ ("apiKey" = "longitude"))]
  · intro hcen
    constructor
    · rw [AudiomEmbedConfig.toQueryParams,
        getParam_additionalStep_ne _ _ _ (fun l hl kv hkv => (hadd l hl kv hkv).2.1),
        getParam_optsStep_ne _ _ _ (by decide) (by decide) (by decide) (by decide)
          (by decide) (by decide) (by decide) (by decide)]
      simp only [AudiomEmbedConfig.centerStep, hcen]
      rw [getParam_setIfSome_ne _ _ _ _ (by decide : ("latitude":String) ≠ "longitude")]
      refine getParam_setIfSome_self _ _ _ ?_
      rw [getParam_sourcesStep_ne _ _ _ (by decide) (by decide)]
      simp only [getParam]
      rw [if_neg (by decide : ¬ ("apiKey" = "latitude"))]
    · rw [AudiomEmbedConfig.toQueryParams,
        getParam_additionalStep_ne _ _ _ (fun l hl kv hkv => (hadd l hl kv hkv).2.2),
        getParam_optsStep_ne _ _ _ (by decide) (by decide) (by decide) (by decide)
          (by decide) (by decide) (by decide) (by decide)]
      simp only [AudiomEmbedConfig.centerStep, hcen]
      refine getParam_setIfSome_self _ _ _ ?_
      rw [getParam_setIfSome_ne _ _ _ _ (by decide : ("longitude":String) ≠ "latitude"),
        getParam_sourcesStep_ne _ _ _ (by decide) (by decide)]
      simp only [getParam]
      rw [if_neg (by decide : ¬ ("apiKey" = "longitude"))]

/-- C5: the claim as stated is false on the code: with center present, an
additionalParams entry named `latitude` still puts a latitude key in the
output (step 6 merges last and can also overwrite `center` itself). -/
theorem center_precedence_counterexample :
    (AudiomEmbedConfig.center
      { embedId := "dynamic", apiKey := "k", center := some (1, 2),
        additionalParams := some [("latitude", .str "9")] }) = some (1, 2) ∧
    getParam (AudiomEmbedConfig.toQueryParams
      { embedId := "dynamic", apiKey := "k", center := some (1, 2),
        additionalParams := some [("latitude", .str "9")] }) "latitude"
      = some "9" :=
  ⟨rfl, rfl⟩

/-- C5 witness: with center (-3, 4) and no additionalParams, the center
key is the longitude-first pair and no latitude key appears. -/
theorem center_precedence_witness :
    getParam (AudiomEmbedConfig.toQueryParams
        { embedId := "dynamic", apiKey := "k", center := some (-3, 4) }) "center"
      = some (numToString (-3) ++ "," ++ numToString 4) ∧
    getParam (AudiomEmbedConfig.toQueryParams
        { embedId := "dynamic", apiKey := "k", center := some (-3, 4) }) "latitude"
      = none := by
  have h := (center_precedence_emission
    { embedId := "dynamic", apiKey := "k", center := some (-3, 4) }
    (by intro l hl; cases hl)).1 (-3) 4 rfl
  exact ⟨h.1, h.2.1⟩

/-- C6 (amended): provided additionalParams — merged last, able to
overwrite anything (see C4) — binds none of the eight option keys: each
of `zoom`, `demo`, `showVisualMap`, `heading`, `showHeading` is bound
under exactly its field name whenever it is defined (including boolean
false and numeric 0) to its stringified value; `soundpack` and `title`
are bound only when truthy, so an empty string yields no key; a present
stepSize is bound under the all-lowercase key `stepsize`. -/
theorem optional_params_emission (c : AudiomEmbedConfig)
    (hadd : ∀ l, c.additionalParams = some l → ∀ kv ∈ l,
      kv.1 ≠ "zoom" ∧ kv.1 ≠ "soundpack" ∧ kv.1 ≠ "demo" ∧ kv.1 ≠ "title" ∧
      kv.1 ≠ "showVisualMap" ∧ kv.1 ≠ "heading" ∧ kv.1 ≠ "showHeading" ∧
      kv.1 ≠ "stepsize") :
    getParam c.toQueryParams "zoom" = c.zoom.map numToString ∧
    getParam c.toQueryParams "demo" = c.demo.map boolStr ∧
    getParam c.toQueryParams "showVisualMap" = c.showVisualMap.map boolStr ∧
    getParam c.toQueryParams "heading" = c.heading.map numToString ∧
    getParam c.toQueryParams "showHeading" = c.showHeading.map boolStr ∧
    getParam c.toQueryParams "soundpack" = truthyStr c.soundpack ∧
    getParam c.toQueryParams "title" = truthyStr c.title ∧
    getParam c.toQueryParams "stepsize" = c.stepSize.map StepSize.toStr := by
  refine ⟨?_, ?_, ?_, ?_, ?_, ?_, ?_, ?_⟩
  · rw [AudiomEmbedConfig.toQueryParams,
      getParam_additionalStep_ne _ _ _ (fun l hl kv hkv => (hadd l hl kv hkv).1)]
    simp only [AudiomEmbedConfig.optsStep]
    rw [getParam_setIfSome_ne _ _ _ _ (by decide), getParam_setIfSome_ne _ _ _ _ (by decide),
      getParam_setIfSome_ne _ _ _ _ (by decide), getParam_setIfSome_ne _ _ _ _ (by decide),
      getParam_setIfSome_ne _ _ _ _ (by decide), getParam_setIfSome_ne _ _ _ _ (by decide),
      getParam_setIfSome_ne _ _ _ _ (by decide)]
    exact getParam_setIfSome_self _ _ _
      (getParam_preOpts_none c _ (by decide) (by decide) (by decide) (by decide)
        (by decide) (by decide))
  · rw [AudiomEmbedConfig.toQueryParams,
      getParam_additionalStep_ne _ _ _ (fun l hl kv hkv => (hadd l hl kv hkv).2.2.1)]
    simp only [AudiomEmbedConfig.optsStep]
    rw [getParam_setIfSome_ne _ _ _ _ (by decide), getParam_setIfSome_ne _ _ _ _ (by decide),
      getParam_setIfSome_ne _ _ _ _ (by decide), getParam_setIfSome_ne _ _ _ _ (by decide),
      getParam_setIfSome_ne _ _ _ _ (by decide)]
    refine (getParam_setIfSome_self _ _ _ ?_)
    rw [getParam_setIfSome_ne _ _ _ _ (by decide), getParam_setIfSome_ne _ _ _ _ (by decide)]
    exact getParam_preOpts_none c _ (by decide) (by decide) (by decide) (by decide)
      (by decide) (by decide)
  · rw [AudiomEmbedConfig.toQueryParams,
      getParam_additionalStep_ne _ _ _ (fun l hl kv hkv => (hadd l hl kv hkv).2.2.2.2.1)]
    simp only [AudiomEmbedConfig.optsStep]
    rw [getParam_setIfSome_ne _ _ _ _ (by decide), getParam_setIfSome_ne _ _ _ _ (by decide),
      getParam_setIfSome_ne _ _ _ _ (by decide)]
    refine (getParam_setIfSome_self _ _ _ ?_)
    rw [getParam_setIfSome_ne _ _ _ _ (by decide), getParam_setIfSome_ne _ _ _ _ (by decide),
      getParam_setIfSome_ne _ _ _ _ (by decide), getParam_setIfSome_ne _ _ _ _ (by decide)]
    exact getParam_preOpts_none c _ (by decide) (by decide) (by decide) (by decide)
      (by decide) (by decide)
  · rw [AudiomEmbedConfig.toQueryParams,
      getParam_additionalStep_ne _ _ _ (fun l hl kv hkv => (hadd l hl kv hkv).2.2.2.2.2.1)]
    simp only [AudiomEmbedConfig.optsStep]
    rw [getParam_setIfSome_ne _ _ _ _ (by decide), getParam_setIfSome_ne _ _ _ _ (by decide)]
    refine (getParam_setIfSome_self _ _ _ ?_)
    rw [getParam_setIfSome_ne _ _ _ _ (by decide), getParam_setIfSome_ne _ _ _ _ (by decide),
      getParam_setIfSome_ne _ _ _ _ (by decide), getParam_setIfSome_ne _ _ _ _ (by decide),
      getParam_setIfSome_ne _ _ _ _ (by decide)]
    exact getParam_preOpts_none c _ (by decide) (by decide) (by decide) (by decide)
      (by decide) (by decide)
  · rw [AudiomEmbedConfig.toQueryParams,
      getParam_additionalStep_ne _ _ _
        (fun l hl kv hkv => (hadd l hl kv hkv).2.2.2.2.2.2.1)]
    simp only [AudiomEmbedConfig.optsStep]
    rw [getParam_setIfSome_ne _ _ _ _ (by decide)]
    refine (getParam_setIfSome_self _ _ _ ?_)
    rw [getParam_setIfSome_ne _ _ _ _ (by decide), getParam_setIfSome_ne _ _ _ _ (by decide),
      getParam_setIfSome_ne _ _ _ _ (by decide), getParam_setIfSome_ne _ _ _ _ (by decide),
      getParam_setIfSome_ne _ _ _ _ (by decide), getParam_setIfSome_ne _ _ _ _ (by decide)]
    exact getParam_preOpts_none c _ (by decide) (by decide) (by decide) (by decide)
      (by decide) (by decide)
  · rw [AudiomEmbedConfig.toQueryParams,
      getParam_additionalStep_ne _ _ _ (fun l hl kv hkv => (hadd l hl kv hkv).2.1)]
    simp only [AudiomEmbedConfig.optsStep]
    rw [getParam_setIfSome_ne _ _ _ _ (by decide), getParam_setIfSome_ne _ _ _ _ (by decide),
      getParam_setIfSome_ne _ _ _ _ (by decide), getParam_setIfSome_ne _ _ _ _ (by decide),
      getParam_setIfSome_ne _ _ _ _ (by decide), getParam_setIfSome_ne _ _ _ _ (by decide)]
    refine (getParam_setIfSome_self _ _ _ ?_)
    rw [getParam_setIfSome_ne _ _ _ _ (by decide)]
    exact getParam_preOpts_none c _ (by decide) (by decide) (by decide) (by decide)
      (by decide) (by decide)
  · rw [AudiomEmbedConfig.toQueryParams,
      getParam_additionalStep_ne _ _ _ (fun l hl kv hkv => (hadd l hl kv hkv).2.2.2.1)]
    simp only [AudiomEmbedConfig.optsStep]
    rw [getParam_setIfSome_ne _ _ _ _ (by decide), getParam_setIfSome_ne _ _ _ _ (by decide),
      getParam_setIfSome_ne _ _ _ _ (by decide), getParam_setIfSome_ne _ _ _ _ (by decide)]
    refine (getParam_setIfSome_self _ _ _ ?_)
    rw [getParam_setIfSome_ne _ _ _ _ (by decide), getParam_setIfSome_ne _ _ _ _ (by decide),
      getParam_setIfSome_ne _ _ _ _ (by decide)]
    exact getParam_preOpts_none c _ (by decide) (by decide) (by decide) (by decide)
      (by decide) (by decide)
  · rw [AudiomEmbedConfig.toQueryParams,
      getParam_additionalStep_ne _ _ _
        (fun l hl kv hkv => (hadd l hl kv hkv).2.2.2.2.2.2.2)]
    simp only [AudiomEmbedConfig.optsStep]
    refine (getParam_setIfSome_self _ _ _ ?_)
    rw [getParam_setIfSome_ne _ _ _ _ (by decide), getParam_setIfSome_ne _ _ _ _ (by decide),
      getParam_setIfSome_ne _ _ _ _ (by decide), getParam_setIfSome_ne _ _ _ _ (by decide),
      getParam_setIfSome_ne _ _ _ _ (by decide), getParam_setIfSome_ne _ _ _ _ (by decide),
      getParam_setIfSome_ne _ _ _ _ (by decide)]
    exact getParam_preOpts_none c _ (by decide) (by decide) (by decide) (by decide)
      (by decide) (by decide)

/-- C6: the claim as stated is false on the code: with an empty-string
soundpack (which the truthiness check skips), an additionalParams entry
named `soundpack` still puts a soundpack key in the output. -/
theorem optional_params_counterexample :
    (AudiomEmbedConfig.soundpack
      { embedId := "dynamic", apiKey := "k", soundpack := some "",
        additionalParams := some [("soundpack", .str "x")] }) = some "" ∧
    getParam (AudiomEmbedConfig.toQueryParams
      { embedId := "dynamic", apiKey := "k", soundpack := some "",
        additionalParams := some [("soundpack", .str "x")] }) "soundpack"
      = some "x" :=
  ⟨rfl, rfl⟩

/-- C6 witness: zoom 0 and demo false are emitted, empty soundpack and
title are not, and the step size appears under `stepsize`. -/
theorem optional_params_witness :
    getParam (AudiomEmbedConfig.toQueryParams
        { embedId := "dynamic", apiKey := "k", zoom := some 0, demo := some false,
          soundpack := some "", title := some "",
          stepSize := some ⟨50, .Meters⟩ }) "zoom" = some "0" ∧
    getParam (AudiomEmbedConfig.toQueryParams
        { embedId := "dynamic", apiKey := "k", zoom := some 0, demo := some false,
          soundpack := some "", title := some "",
          stepSize := some ⟨50, .Meters⟩ }) "demo" = some "false" ∧
    getParam (AudiomEmbedConfig.toQueryParams
        { embedId := "dynamic", apiKey := "k", zoom := some 0, demo := some false,
          soundpack := some "", title := some "",
          stepSize := some ⟨50, .Meters⟩ }) "soundpack" = none ∧
    getParam (AudiomEmbedConfig.toQueryParams
        { embedId := "dynamic", apiKey := "k", zoom := some 0, demo := some false,
          soundpack := some "", title := some "",
          stepSize := some ⟨50, .Meters⟩ }) "stepsize" = some "50m" := by
  have h := optional_params_emission
    { embedId := "dynamic", apiKey := "k", zoom := some 0, demo := some false,
      soundpack := some "", title := some "", stepSize := some ⟨50, .Meters⟩ }
    (by intro l hl; cases hl)
  refine ⟨h.1.trans (by decide), h.2.1.trans (by decide),
    h.2.2.2.2.2.1.trans (by decide), h.2.2.2.2.2.2.2.trans (by decide)⟩

/-- C9 witness: the general clause applied at the claim's concrete
input. -/
theorem fromEsri_query_params_witness :
    getParam (AudiomSource.toQueryParams
        (AudiomSource.fromEsri "units" "https://x" none (some .Indoor) none))
      ("units" ++ ".name") = none ∧
    getParam (AudiomSource.toQueryParams
        (AudiomSource.fromEsri "units" "https://x" none (some .Indoor) none))
      ("units" ++ ".url") = some "https://x" := by
  have h := fromEsri_query_params.2 "units" "https://x" (some .Indoor) (by decide)
  exact ⟨h.2.2.2.1, h.2.1⟩
